import Mathlib

/-!
Verification of the Porta API gateway proxy core against its source.

Each definition below is a shallow embedding of a function of the Go
source tree (package `proxy`, `sd`, `router/mux`): pure Go functions
become Lean functions, Go maps become association lists iterated in
list order, machine integers become `Nat`/`Int` with explicit reduction
modulo 2^64 where overflow matters, and fallible Go code returns
`Except`. Definitions kept close to the source keep the source names.
-/

namespace Porta

/-- Minimal JSON value model for decoded response bodies
(Go `map[string]interface\x7b\x7d` values): atoms plus nested objects,
where an object is an association list iterated in list order. -/
inductive JVal where
  | num (n : Int)
  | str (s : String)
  | obj (fields : List (String × JVal))

/-- A decoded JSON object: the `Data` of a proxy response. -/
abbrev JObj := List (String × JVal)

/-- Embedding of `proxy.Response` (src/unnamed/part_010): the entity
returned by the proxy. -/
structure Response where
  data : JObj
  isComplete : Bool

/-- The error values of the Go source, one constructor per named error
plus `other` for arbitrary wrapped errors (transport, subscriber). -/
inductive GoErr where
  | noBackends
  | tooManyBackends
  | tooManyProxies
  | notEnoughProxies
  | noHosts
  | invalidStatusCode
  | ctxCanceled
  | other (msg : String)
  deriving DecidableEq, Repr

/-- The middleware layers a compiled proxy stack is built from,
one tag per wrapping function of package `proxy`. -/
inductive Layer where
  | requestBuilder
  | concurrent
  | loadBalance
  | httpCaller
  deriving DecidableEq, Repr

/-- The part of `config.Backend` that `defaultFactory.newStack` reads. -/
structure Backend where
  concurrentCalls : Int

/-- The part of `config.EndpointConfig` that `defaultFactory.New` reads. -/
structure EndpointConfig where
  backend : List Backend

/-- Embedding of `defaultFactory.newStack` (src/proxy/factory.go lines
111-120): the layer list of the compiled single-backend stack, outermost
first. The source wraps the http caller with the load-balance middleware,
wraps with the concurrent middleware when `backend.ConcurrentCalls > 1`,
and then wraps with the concurrent middleware once more, unconditionally. -/
def newStack (backend : Backend) : List Layer :=
  let p := [Layer.httpCaller]
  let p := Layer.loadBalance :: p
  let p := if 1 < backend.concurrentCalls then Layer.concurrent :: p else p
  Layer.concurrent :: p

/-- The single-backend stack composition stated by the spec (section 4.10):
RequestBuilder outermost, then Concurrent present iff
`backend.ConcurrentCalls > 1`, then LoadBalance, then the HTTP caller.
Stated from the spec wording, to be compared with `newStack`. -/
def specSingleBackendStack (backend : Backend) : List Layer :=
  Layer.requestBuilder ::
    ((if 1 < backend.concurrentCalls then [Layer.concurrent] else []) ++
      [Layer.loadBalance, Layer.httpCaller])

/-- A compiled proxy graph: either one single-backend stack or the merge
middleware wrapping one stack per backend. -/
inductive ProxyTree where
  | stack (layers : List Layer)
  | merge (children : List ProxyTree)

/-- Embedding of `defaultFactory.New` (src/proxy/factory.go lines 85-95)
together with `newSingle` and `newMulti`: switch on the number of
backends. -/
def factoryNew (cfg : EndpointConfig) : Except GoErr ProxyTree :=
  match cfg.backend with
  | [] => .error .noBackends
  | [b] => .ok (.stack (newStack b))
  | bs => .ok (.merge (bs.map (fun b => ProxyTree.stack (newStack b))))

/-- Embedding of the response handling of `NewHttpProxy`
(src/proxy/http.go lines 121-155, the current revision): after the
transport call, check the context, propagate the transport error, accept
only status 200 or 201, decode, format. The formatter and decoder results
are parameters, as in the source they are injected. -/
def httpProxyRespond (ctxDone : Bool) (transportErr : Option GoErr)
    (status : Nat) (decodeResult : Except GoErr JObj)
    (format : Response → Response) : Except GoErr Response :=
  if ctxDone then .error .ctxCanceled
  else
    match transportErr with
    | some e => .error e
    | none =>
      if status ≠ 200 ∧ status ≠ 201 then .error .invalidStatusCode
      else
        match decodeResult with
        | .error e => .error e
        | .ok data => .ok (format ⟨data, true⟩)

/-- The modulus of the Go `uint64` arithmetic used by the round-robin
balancer counter. -/
def U64 : Nat := 2 ^ 64

/-- Embedding of `roundRobinLB.Host` (src/unnamed/part_014 lines 27-37):
ask the subscriber for the hosts, fail on subscriber error or empty host
set, otherwise increment the `uint64` counter (wrapping at 2^64) and index
the host list at `(counter_new - 1) mod len`, with the subtraction also in
`uint64` arithmetic. Returns the result and the new counter state. -/
def rrHost (hostsRes : Except GoErr (List String)) (counter : Nat) :
    Except GoErr String × Nat :=
  match hostsRes with
  | .error e => (.error e, counter)
  | .ok hosts =>
    if hosts.length ≤ 0 then (.error .noHosts, counter)
    else
      let newCounter := (counter + 1) % U64
      let offset := ((newCounter + U64 - 1) % U64) % hosts.length
      (.ok (hosts.getD offset ""), newCounter)

/-- Counter state of the round-robin balancer after `n` calls to `Host`,
starting from the zero counter of `NewRoundRobinLB`. -/
def rrCounterAfter (hostsRes : Except GoErr (List String)) : Nat → Nat
  | 0 => 0
  | n + 1 => (rrHost hostsRes (rrCounterAfter hostsRes n)).2

/-- The value returned by the `n`-th call (counting from 1) to
`roundRobinLB.Host` over a fixed subscriber result. -/
def rrNthCall (hostsRes : Except GoErr (List String)) (n : Nat) :
    Except GoErr String :=
  (rrHost hostsRes (rrCounterAfter hostsRes (n - 1))).1

/-- Embedding of `randomLB.Host` (src/unnamed/part_014 lines 51-60): the
random source is a parameter `rnd`; the source draws `rnd.Intn(len hosts)`,
an index below the length. -/
def randomHost (hostsRes : Except GoErr (List String)) (rnd : Nat → Nat) :
    Except GoErr String :=
  match hostsRes with
  | .error e => .error e
  | .ok hosts =>
    if hosts.length ≤ 0 then .error .noHosts
    else .ok (hosts.getD (rnd hosts.length) "")

/-- The two ways the Go runtime aborts `proxy.EmptyMiddleware`: the
explicit `panic(ErrTooManyProxies)` of the guard, and the runtime
index-out-of-range panic of `next[0]` on an empty slice. -/
inductive PanicKind where
  | tooManyProxies
  | indexOutOfRange
  deriving DecidableEq, Repr

/-- Embedding of `proxy.EmptyMiddleware` (src/unnamed/part_010 lines
33-38): panic with `ErrTooManyProxies` when `len(next) >= 1`, otherwise
evaluate `next[0]`, which on the empty slice is an index-out-of-range
panic. Panics are modelled as `Except.error`. -/
def EmptyMiddleware {α : Type} (next : List α) : Except PanicKind α :=
  if 1 ≤ next.length then .error .tooManyProxies
  else
    match next.head? with
    | some p => .ok p
    | none => .error .indexOutOfRange

/-- Model of the parts of `net/url.URL` the load-balance middleware
touches: the parsed location and the raw query string it overwrites. -/
structure PURL where
  base : String
  rawQuery : String
  deriving DecidableEq, Repr

/-- The part of `proxy.Request` the load-balance middleware reads and
writes: the path, the query multimap and the URL slot filled by this
layer. In the source the middleware operates on `request.Clone()`; the
clone owns fresh maps, which value semantics gives for free here. -/
structure LBRequest where
  path : String
  query : List (String × List String)
  url : Option PURL

/-- Embedding of `newLoadBalancedMiddleware` (src/unnamed/part_009 lines
20-44): obtain a host from the balancer (short-circuiting on error),
clone the request, parse `host + path` into the URL (short-circuiting on
parse error), encode the query map into the raw query, and forward to the
single downstream proxy. `url.Parse` and `Values.Encode` are Go standard
library collaborators, taken as parameters. -/
def newLoadBalancedMiddleware (lbHost : Except GoErr String)
    (urlParse : String → Except GoErr PURL)
    (encodeQuery : List (String × List String) → String)
    (next : LBRequest → Except GoErr Response) (request : LBRequest) :
    Except GoErr Response :=
  match lbHost with
  | .error e => .error e
  | .ok host =>
    match urlParse (host ++ request.path) with
    | .error e => .error e
    | .ok u =>
      next { request with url := some { u with rawQuery := encodeQuery request.query } }

/-- Reply produced by the mux endpoint handler: HTTP status, the response
headers in the order they are set, and the written body. -/
structure HTTPReply where
  status : Nat
  headers : List (String × String)
  body : String
  deriving DecidableEq, Repr

/-- Source messages of the named errors (src/unnamed/part_010), used by
the handler when it writes `err.Error()` into a 500 body. -/
def goErrMessage : GoErr → String
  | .noBackends => "all endpoints must have at least one backend"
  | .tooManyBackends => "too many backends for this proxy"
  | .tooManyProxies => "too many proxies for this proxy middleware"
  | .notEnoughProxies => "not enough proxies for this endpoint"
  | .noHosts => "no hosts available"
  | .invalidStatusCode => "Invalid status code"
  | .ctxCanceled => "context canceled"
  | .other msg => msg

/-- Embedding of `CustomEndpointHandler` (src/router/mux/router.go lines
146-190, applied to one request): method check, timeout context, proxy
invocation, error and cancellation replies, JSON serialization of the
response data, and the conditional Cache-Control header. `json.Marshal`
is a parameter `jsonEncode`; `cacheTTLns` is the configured
`CacheTTL` duration in nanoseconds, and the Go
`int(configuration.CacheTTL.Seconds())` is integer division truncated
toward zero. The proxy outcome and the timeout-context state after the
call are parameters. -/
def customEndpointHandler (cfgMethod : String) (cacheTTLns : Int)
    (jsonEncode : JObj → String) (reqMethod : String)
    (proxyResult : Except GoErr (Option Response)) (ctxDone : Bool) :
    HTTPReply :=
  if reqMethod ≠ cfgMethod then ⟨405, [], ""⟩
  else
    match proxyResult with
    | .error e => ⟨500, [("X_X", "Version undefined")], goErrMessage e⟩
    | .ok oresp =>
      if ctxDone then
        ⟨500, [("X_X", "Version undefined")], "internal server error"⟩
      else
        match oresp with
        | some resp =>
          let js := jsonEncode resp.data
          let cacheHeaders :=
            if cacheTTLns ≠ (0 : Int) ∧ resp.isComplete then
              [("Cache-Control",
                "max-age=" ++ toString (cacheTTLns.tdiv 1000000000))]
            else []
          ⟨200, [("X_X", "Version undefined")] ++ cacheHeaders ++
            [("Content-Type", "application/json")], js⟩
        | none =>
          ⟨200, [("X_X", "Version undefined"),
            ("Content-Type", "application/json")], ""⟩

/-- C1: the compiled single-backend stack is claimed to be
RequestBuilder(Concurrent?(LoadBalance(HTTPCaller))) with the concurrent
layer present iff `ConcurrentCalls > 1`. The code instead wraps with a
second, unconditional concurrent layer where the request builder should
be, so the compiled stack never matches the claimed composition; at
`ConcurrentCalls = 0` the stacks are evaluated explicitly. -/
theorem newStack_applies_concurrent_not_request_builder :
    (∀ b : Backend, newStack b ≠ specSingleBackendStack b) ∧
    newStack ⟨0⟩ = [Layer.concurrent, Layer.loadBalance, Layer.httpCaller] ∧
    specSingleBackendStack ⟨0⟩ =
      [Layer.requestBuilder, Layer.loadBalance, Layer.httpCaller] := by
  refine ⟨fun b => ?_, by decide, by decide⟩
  unfold newStack specSingleBackendStack
  intro h
  by_cases hc : 1 < b.concurrentCalls <;> simp [hc] at h

/-- C5: `defaultFactory.New` fails with `ErrNoBackends` on an empty
backend list, compiles the single-backend stack for exactly one backend,
and wraps one stack per backend with the merge middleware for two or
more. -/
theorem factoryNew_cases (cfg : EndpointConfig) :
    (cfg.backend = [] → factoryNew cfg = .error .noBackends) ∧
    (∀ b, cfg.backend = [b] → factoryNew cfg = .ok (.stack (newStack b))) ∧
    (2 ≤ cfg.backend.length →
      factoryNew cfg =
        .ok (.merge (cfg.backend.map (fun b => ProxyTree.stack (newStack b))))) := by
  refine ⟨fun h => ?_, fun b h => ?_, fun h => ?_⟩
  · simp [factoryNew, h]
  · simp [factoryNew, h]
  · match hcb : cfg.backend with
    | [] => rw [hcb] at h; simp at h
    | [b] => rw [hcb] at h; simp at h
    | b1 :: b2 :: bs => simp [factoryNew, hcb]

/-- Witness for C5 at concrete endpoint configurations with zero, one and
two backends. -/
theorem factoryNew_cases_witness :
    factoryNew ⟨[]⟩ = .error .noBackends ∧
    factoryNew ⟨[⟨0⟩]⟩ = .ok (.stack (newStack ⟨0⟩)) ∧
    factoryNew ⟨[⟨0⟩, ⟨2⟩]⟩ =
      .ok (.merge [ProxyTree.stack (newStack ⟨0⟩), ProxyTree.stack (newStack ⟨2⟩)]) :=
  ⟨(factoryNew_cases ⟨[]⟩).1 rfl,
   (factoryNew_cases ⟨[⟨0⟩]⟩).2.1 ⟨0⟩ rfl,
   (factoryNew_cases ⟨[⟨0⟩, ⟨2⟩]⟩).2.2 (by decide)⟩

/-- C3: for a backend call that completes without transport error or
cancellation, the HTTP caller treats status 200 and 201 as success
(proceeding to decode and format) and fails with `ErrInvalidStatusCode`
for every other status code. -/
theorem httpProxy_status_codes (status : Nat)
    (decodeResult : Except GoErr JObj) (format : Response → Response) :
    (status ≠ 200 → status ≠ 201 →
      httpProxyRespond false none status decodeResult format =
        .error .invalidStatusCode) ∧
    ((status = 200 ∨ status = 201) → ∀ data, decodeResult = .ok data →
      httpProxyRespond false none status decodeResult format =
        .ok (format ⟨data, true⟩)) := by
  constructor
  · intro h200 h201
    simp [httpProxyRespond, h200, h201]
  · rintro (h | h) data hdec <;> simp [httpProxyRespond, h, hdec]

/-- Witness for C3 at status 404 (rejected) and 200 (accepted). -/
theorem httpProxy_status_codes_witness :
    httpProxyRespond false none 404 (.ok []) id = .error .invalidStatusCode ∧
    httpProxyRespond false none 200 (.ok []) id = .ok (id ⟨[], true⟩) :=
  ⟨(httpProxy_status_codes 404 (.ok []) id).1 (by decide) (by decide),
   (httpProxy_status_codes 200 (.ok []) id).2 (Or.inl rfl) [] rfl⟩

/-- C9: both balancer variants fail with the no-hosts-available error on
an empty host set and propagate the subscriber error otherwise, for every
counter state and every random source. -/
theorem balancers_empty_and_error (counter : Nat) (rnd : Nat → Nat) :
    ((rrHost (.ok []) counter).1 = .error .noHosts ∧
      randomHost (.ok []) rnd = .error .noHosts) ∧
    (∀ e, (rrHost (.error e) counter).1 = .error e ∧
      randomHost (.error e) rnd = .error e) := by
  refine ⟨⟨rfl, rfl⟩, fun e => ⟨rfl, rfl⟩⟩

/-- C10: `EmptyMiddleware` panics on every input: it never returns a
proxy, panics with `ErrTooManyProxies` on every non-empty proxy list, and
panics with an index-out-of-range on the empty list. -/
theorem emptyMiddleware_always_panics (α : Type) (next : List α) :
    (∀ p, EmptyMiddleware next ≠ .ok p) ∧
    (next ≠ [] → EmptyMiddleware next = .error .tooManyProxies) ∧
    (next = [] → EmptyMiddleware next = .error .indexOutOfRange) := by
  refine ⟨?_, ?_, ?_⟩
  · intro p h
    match next with
    | [] => simp [EmptyMiddleware] at h
    | a :: l => simp [EmptyMiddleware] at h
  · intro h
    match next with
    | [] => exact absurd rfl h
    | a :: l => simp [EmptyMiddleware]
  · intro h
    subst h
    rfl

/-- Witness for C10 on a one-element list and on the empty list. -/
theorem emptyMiddleware_always_panics_witness :
    EmptyMiddleware [0] = .error .tooManyProxies ∧
    EmptyMiddleware ([] : List Nat) = .error .indexOutOfRange :=
  ⟨(emptyMiddleware_always_panics Nat [0]).2.1 (by simp),
   (emptyMiddleware_always_panics Nat []).2.2 rfl⟩

/-- Whether a downstream result succeeded (`err == nil` in the source). -/
def exSucceeded : Except GoErr Response → Bool
  | .ok _ => true
  | .error _ => false

/-- Overwrite-or-append assignment `o[k] = v` on an object modelled as an
association list (the behavior of a Go map write, iteration order being
insertion order in this model). -/
def setObj (o : JObj) (k : String) (v : JVal) : JObj :=
  match o with
  | [] => [(k, v)]
  | (k', v') :: rest => if k' = k then (k, v) :: rest else (k', v') :: setObj rest k v

/-- Copy every top-level key of `new` into `acc`, later writes
overwriting earlier ones on collision. -/
def copyAll (acc new : JObj) : JObj :=
  new.foldl (fun a kv => setObj a kv.1 kv.2) acc

/-- The error of the last failed result in completion order. -/
def lastFailure (results : List (Except GoErr Response)) : Option GoErr :=
  results.foldl (fun acc r => match r with | .error e => some e | .ok _ => acc) none

/-- One merge accumulation step over a downstream result: a success
copies its top-level keys; a failure marks the merge incomplete. -/
def mergeStep (st : JObj × Bool) (r : Except GoErr Response) : JObj × Bool :=
  match r with
  | .ok resp => (copyAll st.1 resp.data, st.2)
  | .error _ => (st.1, false)

/-- Modelled from the spec: `NewMergeDataMiddleware` is called by
`defaultFactory.newMulti` (src/proxy/factory.go line 103) but its
definition is not under src/. Spec section 4.8: collect the K downstream
results; start from an empty accumulator with isComplete true; copy the
top-level keys of each successful result into the accumulator, later
arrivals overwriting earlier ones; each failed result sets isComplete to
false; return the accumulator with no error unless every result failed,
in which case the error of the last failure is propagated. The argument
list carries the downstream results in completion order. -/
def mergeDataMiddleware (results : List (Except GoErr Response)) :
    Except GoErr Response :=
  let st := results.foldl mergeStep ([], true)
  if results.any exSucceeded then .ok ⟨st.1, st.2⟩
  else
    match lastFailure results with
    | some e => .error e
    | none => .ok ⟨st.1, st.2⟩

theorem merge_foldl_snd (results : List (Except GoErr Response)) :
    ∀ acc b, (results.foldl mergeStep (acc, b)).2 = (b && results.all exSucceeded) := by
  induction results with
  | nil => simp
  | cons r rest ih =>
    intro acc b
    match r with
    | .ok resp => simp [List.all_cons, mergeStep, ih, exSucceeded]
    | .error e => simp [List.all_cons, mergeStep, ih, exSucceeded]

theorem mergeDataMiddleware_of_any (results : List (Except GoErr Response))
    (hany : results.any exSucceeded = true) :
    mergeDataMiddleware results =
      .ok ⟨(results.foldl mergeStep ([], true)).1, results.all exSucceeded⟩ := by
  simp only [mergeDataMiddleware]
  rw [if_pos hany]
  have h2 := merge_foldl_snd results [] true
  rw [Bool.true_and] at h2
  rw [h2]

theorem lastFailure_of_some (rest : List (Except GoErr Response)) :
    ∀ e, ∃ e', rest.foldl
      (fun acc r => match r with | .error e => some e | .ok _ => acc)
      (some e) = some e' := by
  induction rest with
  | nil => exact fun e => ⟨e, rfl⟩
  | cons r rest ih =>
    intro e
    match r with
    | .ok resp => exact ih e
    | .error e2 => exact ih e2

theorem lastFailure_isSome (results : List (Except GoErr Response)) :
    (∃ r ∈ results, exSucceeded r = false) →
    ∃ e, lastFailure results = some e := by
  induction results with
  | nil => rintro ⟨r, hr, -⟩; simp at hr
  | cons r rest ih =>
    rintro ⟨r', hr', hf⟩
    match r with
    | .error e => exact lastFailure_of_some rest e
    | .ok resp =>
      rcases List.mem_cons.1 hr' with rfl | hmem
      · simp [exSucceeded] at hf
      · exact ih ⟨r', hmem, hf⟩

/-- C4: over K >= 2 downstream results, if at least one succeeded the
merge returns the accumulated response with no error, and its IsComplete
is false exactly when some downstream failed; only when every downstream
failed is the error of the last failure propagated. -/
theorem mergeMiddleware_partial_failure
    (results : List (Except GoErr Response)) (hK : 2 ≤ results.length) :
    ((∃ r ∈ results, exSucceeded r = true) →
      ∃ resp, mergeDataMiddleware results = .ok resp ∧
        (resp.isComplete = false ↔ ∃ r ∈ results, exSucceeded r = false)) ∧
    ((∀ r ∈ results, exSucceeded r = false) →
      ∃ e, lastFailure results = some e ∧
        mergeDataMiddleware results = .error e) := by
  constructor
  · intro hex
    have hany : results.any exSucceeded = true := List.any_eq_true.2 hex
    refine ⟨_, mergeDataMiddleware_of_any results hany, ?_⟩
    show results.all exSucceeded = false ↔ _
    constructor
    · intro hall
      exact List.all_eq_false.1 hall |>.imp (fun r => And.imp_right (by simp))
    · intro hfail
      exact List.all_eq_false.2 (hfail.imp (fun r => And.imp_right (by simp)))
  · intro hall
    have hne : ∃ r ∈ results, exSucceeded r = false := by
      match results, hK with
      | r :: rest, _ => exact ⟨r, List.mem_cons_self r rest, hall r (List.mem_cons_self r rest)⟩
    obtain ⟨e, he⟩ := lastFailure_isSome results hne
    have hany : results.any exSucceeded = false :=
      List.any_eq_false.2 (fun r hr => by simp [hall r hr])
    refine ⟨e, he, ?_⟩
    simp only [mergeDataMiddleware]
    rw [if_neg (by rw [hany]; exact Bool.false_ne_true), he]

/-- Witness for C4: one success plus one failure merges to an incomplete
response without error; two failures propagate the last error. -/
theorem mergeMiddleware_partial_failure_witness :
    (∃ resp, mergeDataMiddleware [.error .noHosts, .ok ⟨[("a", .num 1)], true⟩] =
        .ok resp ∧
      (resp.isComplete = false ↔
        ∃ r ∈ [Except.error GoErr.noHosts, Except.ok (⟨[("a", .num 1)], true⟩ : Response)],
          exSucceeded r = false)) ∧
    (∃ e, lastFailure [.error .noHosts, .error .invalidStatusCode] = some e ∧
      mergeDataMiddleware [.error .noHosts, .error .invalidStatusCode] = .error e) :=
  ⟨(mergeMiddleware_partial_failure _ (by simp)).1
      ⟨.ok ⟨[("a", .num 1)], true⟩, by simp, rfl⟩,
   (mergeMiddleware_partial_failure
      [.error .noHosts, .error .invalidStatusCode] (by simp)).2
      (by intro r hr; rcases List.mem_cons.1 hr with rfl | hr
          · rfl
          · rcases List.mem_cons.1 hr with rfl | hr
            · rfl
            · simp at hr)⟩

/-- Model of the Go standard `strings.Split(s, ".")` used by
`newWhitelistingFilter`: split into the dot-separated segments, keeping
empty segments, with at least one segment for every input. -/
def splitDots (s : String) : List String :=
  (s.toList.foldr
    (fun c (acc : List (List Char)) =>
      if c = '.' then [] :: acc
      else (c :: acc.headD []) :: acc.tail)
    [[]]).map String.mk

/-- Overwrite-or-append assignment on the whitelist index, modelling a Go
map write `wl[k] = v` with the keys in insertion order. -/
def setAssoc (wl : List (String × List String)) (k : String) (v : List String) :
    List (String × List String) :=
  match wl with
  | [] => [(k, v)]
  | (k', v') :: rest => if k' = k then (k, v) :: rest else (k', v') :: setAssoc rest k v

/-- One iteration of the whitelist-index construction loop of
`newWhitelistingFilter` (src/proxy/fomatter.go lines 29-46): split the
entry on dots; a bare key maps to the empty child set (overwriting any
previous children); a dotted entry adds every component after the first
to the child set of the first, creating it when absent. -/
def wlStep (wl : List (String × List String)) (entry : String) :
    List (String × List String) :=
  match splitDots entry with
  | [] => wl
  | k0 :: rest =>
    if rest.isEmpty then setAssoc wl k0 []
    else
      match wl.lookup k0 with
      | some existing => setAssoc wl k0 (existing ++ rest)
      | none => setAssoc wl k0 rest

/-- The whitelist index `wl` built by `newWhitelistingFilter` from the
configured dot-path entries, in order. -/
def buildWL (whitelist : List String) : List (String × List String) :=
  whitelist.foldl wlStep []

/-- Embedding of `whitelistFilterSub` (src/proxy/fomatter.go lines
64-76): a non-object value yields the empty object; an object keeps
exactly the fields whose key is in the child whitelist. -/
def whitelistFilterSub (v : JVal) (sub : List String) : JObj :=
  match v with
  | .obj fields => fields.filter (fun kv => sub.contains kv.1)
  | _ => []

/-- Embedding of the filter closure of `newWhitelistingFilter`
(src/proxy/fomatter.go lines 47-61): for each top-level field whose key
is in the index, keep it unchanged when the child set is empty, otherwise
keep the sub-filtered object when that is non-empty; every other field is
dropped. IsComplete is preserved. -/
def newWhitelistingFilter (whitelist : List String) (entity : Response) :
    Response :=
  let wl := buildWL whitelist
  let accumulator := entity.data.foldl
    (fun acc kv =>
      match wl.lookup kv.1 with
      | some sub =>
        if ¬ sub.isEmpty then
          let tmp := whitelistFilterSub kv.2 sub
          if ¬ tmp.isEmpty then acc ++ [(kv.1, JVal.obj tmp)] else acc
        else acc ++ [(kv.1, kv.2)]
      | none => acc)
    []
  ⟨accumulator, entity.isComplete⟩

/-- A top-level key is listed when it heads the dot-split of some
whitelist entry. -/
def topListed (whitelist : List String) (k : String) : Prop :=
  ∃ e ∈ whitelist, (splitDots e).head? = some k

/-- A child key is listed under `k` when some whitelist entry heads with
`k` and carries the child among its remaining components. -/
def subListed (whitelist : List String) (k c : String) : Prop :=
  ∃ e ∈ whitelist, (splitDots e).head? = some k ∧ c ∈ (splitDots e).tail

/-- The invariant of the whitelist index: every indexed top-level key and
every indexed child key comes from the configured entries. -/
def WLInv (whitelist : List String) (wl : List (String × List String)) : Prop :=
  ∀ p ∈ wl, topListed whitelist p.1 ∧ ∀ c ∈ p.2, subListed whitelist p.1 c

theorem setAssoc_mem (wl : List (String × List String)) (k : String)
    (v : List String) :
    ∀ q ∈ setAssoc wl k v, q = (k, v) ∨ q ∈ wl := by
  induction wl with
  | nil => intro q hq; simp [setAssoc] at hq; exact Or.inl hq
  | cons p rest ih =>
    intro q hq
    by_cases h : p.1 = k
    · rw [show setAssoc (p :: rest) k v = (k, v) :: rest by
        simp [setAssoc, h]] at hq
      rcases List.mem_cons.1 hq with rfl | hq
      · exact Or.inl rfl
      · exact Or.inr (List.mem_cons_of_mem _ hq)
    · rw [show setAssoc (p :: rest) k v = p :: setAssoc rest k v by
        simp [setAssoc, h]] at hq
      rcases List.mem_cons.1 hq with rfl | hq
      · exact Or.inr (List.mem_cons_self _ _)
      · rcases ih q hq with h' | h'
        · exact Or.inl h'
        · exact Or.inr (List.mem_cons_of_mem _ h')

theorem lookup_mem (wl : List (String × List String)) (k : String)
    (v : List String) (h : wl.lookup k = some v) : (k, v) ∈ wl := by
  induction wl with
  | nil => simp [List.lookup] at h
  | cons p rest ih =>
    match p with
    | (k', v') =>
      by_cases hk : k = k'
      · subst hk
        simp [List.lookup] at h
        subst h
        exact List.mem_cons_self _ _
      · rw [show List.lookup k ((k', v') :: rest) = List.lookup k rest by
          simp [List.lookup, beq_false_of_ne hk]] at h
        exact List.mem_cons_of_mem _ (ih h)

theorem wlStep_inv (whitelist : List String) (wl : List (String × List String))
    (entry : String) (hentry : entry ∈ whitelist)
    (hinv : WLInv whitelist wl) : WLInv whitelist (wlStep wl entry) := by
  unfold wlStep
  match hsplit : splitDots entry with
  | [] => exact hinv
  | k0 :: rest =>
    have htop : topListed whitelist k0 := ⟨entry, hentry, by rw [hsplit]; rfl⟩
    have hsub : ∀ c ∈ rest, subListed whitelist k0 c := fun c hc =>
      ⟨entry, hentry, by rw [hsplit]; exact ⟨rfl, hc⟩⟩
    by_cases hre : rest.isEmpty
    · simp only [if_pos hre]
      intro q hq
      rcases setAssoc_mem wl k0 [] q hq with rfl | hq
      · exact ⟨htop, by simp⟩
      · exact hinv q hq
    · simp only [if_neg hre]
      match hlk : wl.lookup k0 with
      | some existing =>
        intro q hq
        rcases setAssoc_mem wl k0 (existing ++ rest) q hq with rfl | hq
        · refine ⟨htop, fun c hc => ?_⟩
          rcases List.mem_append.1 hc with hc | hc
          · exact (hinv (k0, existing) (lookup_mem wl k0 existing hlk)).2 c hc
          · exact hsub c hc
        · exact hinv q hq
      | none =>
        intro q hq
        rcases setAssoc_mem wl k0 rest q hq with rfl | hq
        · exact ⟨htop, hsub⟩
        · exact hinv q hq

theorem buildWL_inv (whitelist : List String) : WLInv whitelist (buildWL whitelist) := by
  have main : ∀ (l : List String) (wl : List (String × List String)),
      (∀ e ∈ l, e ∈ whitelist) → WLInv whitelist wl →
      WLInv whitelist (l.foldl wlStep wl) := by
    intro l
    induction l with
    | nil => intro wl _ hinv; exact hinv
    | cons e rest ih =>
      intro wl hl hinv
      exact ih _ (fun x hx => hl x (List.mem_cons_of_mem _ hx))
        (wlStep_inv whitelist wl e (hl e (List.mem_cons_self _ _)) hinv)
  exact main whitelist [] (fun _ h => h) (fun p hp => by simp at hp)

/-- The property every accumulated output field satisfies. -/
def WLOut (whitelist : List String) (kv : String × JVal) : Prop :=
  topListed whitelist kv.1 ∧
  ∀ sub, (buildWL whitelist).lookup kv.1 = some sub → sub ≠ [] →
    ∀ fields, kv.2 = JVal.obj fields → ∀ kc ∈ fields, subListed whitelist kv.1 kc.1

/-- C7: for every decoded response object and every non-empty whitelist,
the filtered response only holds listed top-level keys, and whenever the
whitelist holds child keys for a kept top-level key, the kept value is an
object whose keys are all listed children; so every key the whitelist
model governs appears in the whitelist spec. -/
theorem whitelist_soundness (whitelist : List String) (hw : whitelist ≠ [])
    (entity : Response) :
    ∀ kv ∈ (newWhitelistingFilter whitelist entity).data, WLOut whitelist kv := by
  have hinv := buildWL_inv whitelist
  unfold newWhitelistingFilter
  have main : ∀ (l : JObj) (acc : JObj), (∀ kv ∈ acc, WLOut whitelist kv) →
      ∀ kv ∈ l.foldl
        (fun acc kv =>
          match (buildWL whitelist).lookup kv.1 with
          | some sub =>
            if ¬ sub.isEmpty then
              let tmp := whitelistFilterSub kv.2 sub
              if ¬ tmp.isEmpty then acc ++ [(kv.1, JVal.obj tmp)] else acc
            else acc ++ [(kv.1, kv.2)]
          | none => acc) acc, WLOut whitelist kv := by
    intro l
    induction l with
    | nil => intro acc hacc kv hkv; exact hacc kv hkv
    | cons hd tl ih =>
      intro acc hacc kv hkv
      refine ih _ ?_ kv hkv
      intro kv' hkv'
      match hlk : (buildWL whitelist).lookup hd.1 with
      | none =>
        simp only [hlk] at hkv'
        exact hacc kv' hkv'
      | some sub =>
        simp only [hlk] at hkv'
        by_cases hse : sub.isEmpty
        · simp only [hse, not_true, if_false] at hkv'
          rcases List.mem_append.1 hkv' with h | h
          · exact hacc kv' h
          · have heq : kv' = (hd.1, hd.2) := by simpa using h
            subst heq
            have htop := (hinv (hd.1, sub) (lookup_mem _ _ _ hlk)).1
            refine ⟨htop, fun sub' hlk' hne' => ?_⟩
            rw [hlk] at hlk'
            cases hlk'
            exact absurd (List.isEmpty_iff.1 hse) hne'
        · simp only [hse, not_false_iff, if_true] at hkv'
          by_cases hte : (whitelistFilterSub hd.2 sub).isEmpty
          · simp only [hte, not_true, if_false] at hkv'
            exact hacc kv' hkv'
          · simp only [hte, not_false_iff, if_true] at hkv'
            rcases List.mem_append.1 hkv' with h | h
            · exact hacc kv' h
            · have heq : kv' = (hd.1, JVal.obj (whitelistFilterSub hd.2 sub)) := by
                simpa using h
              subst heq
              have hmemwl := lookup_mem _ _ _ hlk
              refine ⟨(hinv (hd.1, sub) hmemwl).1, fun sub' hlk' hne' fields hf kc hkc => ?_⟩
              rw [hlk] at hlk'
              cases hlk'
              have hfields : fields = whitelistFilterSub hd.2 sub := by
                injection hf.symm
              subst hfields
              have hcontains : sub.contains kc.1 = true := by
                match hd.2, hkc with
                | .obj f0, hkc =>
                  simp only [whitelistFilterSub] at hkc
                  exact (List.mem_filter.1 hkc).2
              have hkcmem : kc.1 ∈ sub := by
                simpa using hcontains
              exact (hinv (hd.1, sub) hmemwl).2 kc.1 hkcmem
  exact main entity.data [] (fun kv h => by simp at h)

/-- Witness for C7: whitelist a.x plus b over a three-key object keeps
the listed keys only, and the kept sub-object key x is listed under a. -/
theorem whitelist_soundness_witness :
    topListed ["a.x", "b"] "a" ∧ subListed ["a.x", "b"] "a" "x" :=
  have hdata : (newWhitelistingFilter ["a.x", "b"]
      ⟨[("a", JVal.obj [("x", JVal.num 1), ("y", JVal.num 2)]),
        ("b", JVal.num 3), ("c", JVal.num 4)], true⟩).data =
      [("a", JVal.obj [("x", JVal.num 1)]), ("b", JVal.num 3)] := rfl
  have hmem : (("a", JVal.obj [("x", JVal.num 1)]) : String × JVal) ∈
      (newWhitelistingFilter ["a.x", "b"]
        ⟨[("a", JVal.obj [("x", JVal.num 1), ("y", JVal.num 2)]),
          ("b", JVal.num 3), ("c", JVal.num 4)], true⟩).data := by
    rw [hdata]
    exact List.mem_cons_self _ _
  have hout := whitelist_soundness ["a.x", "b"] (by simp)
    ⟨[("a", JVal.obj [("x", JVal.num 1), ("y", JVal.num 2)]),
      ("b", JVal.num 3), ("c", JVal.num 4)], true⟩ _ hmem
  ⟨hout.1, hout.2 ["x"] (by decide) (by decide) [("x", JVal.num 1)] rfl
    ("x", JVal.num 1) (List.mem_cons_self _ _)⟩

/-- C8: when the balancer yields a host, the load-balance middleware
forwards the (cloned) request with URL = parse(host ++ path) carrying the
encoded query map as its raw query; when host resolution fails the error
is returned and the downstream proxy is not invoked (the result is the
same for every downstream). -/
theorem loadBalancedMiddleware_behavior (lbHost : Except GoErr String)
    (urlParse : String → Except GoErr PURL)
    (encodeQuery : List (String × List String) → String)
    (request : LBRequest) :
    (∀ e, lbHost = .error e → ∀ next,
      newLoadBalancedMiddleware lbHost urlParse encodeQuery next request =
        .error e) ∧
    (∀ host u, lbHost = .ok host → urlParse (host ++ request.path) = .ok u →
      ∀ next,
        newLoadBalancedMiddleware lbHost urlParse encodeQuery next request =
          next { request with
                  url := some { u with rawQuery := encodeQuery request.query } }) := by
  constructor
  · intro e he next
    simp [newLoadBalancedMiddleware, he]
  · intro host u hh hp next
    simp [newLoadBalancedMiddleware, hh, hp]

/-- Witness for C8: a failing balancer short-circuits, a successful one
forwards the rewritten request to the downstream proxy. -/
theorem loadBalancedMiddleware_behavior_witness :
    newLoadBalancedMiddleware (.error .noHosts) (fun s => .ok ⟨s, "q0"⟩)
      (fun _ => "a=1") (fun _ => .ok ⟨[], true⟩) ⟨"/x", [("a", ["1"])], none⟩ =
        .error .noHosts ∧
    newLoadBalancedMiddleware (.ok "http://h1") (fun s => .ok ⟨s, "q0"⟩)
      (fun _ => "a=1") (fun r => .ok ⟨[("u", .str (r.url.elim "" (fun u => u.base ++ "?" ++ u.rawQuery)))], true⟩)
      ⟨"/x", [("a", ["1"])], none⟩ =
        .ok ⟨[("u", .str "http://h1/x?a=1")], true⟩ :=
  ⟨(loadBalancedMiddleware_behavior (.error .noHosts) (fun s => .ok ⟨s, "q0"⟩)
      (fun _ => "a=1") ⟨"/x", [("a", ["1"])], none⟩).1 .noHosts rfl _,
   by
    rw [(loadBalancedMiddleware_behavior (.ok "http://h1") (fun s => .ok ⟨s, "q0"⟩)
      (fun _ => "a=1") ⟨"/x", [("a", ["1"])], none⟩).2 "http://h1" ⟨"http://h1/x", "q0"⟩ rfl rfl]
    rfl⟩

/-- C2 counterexample: at cache_ttl = 10s with a complete response, the
mux endpoint handler emits the header value "max-age=10", not the claimed
"public, max-age=10". -/
theorem endpointHandler_cache_header_not_public :
    (customEndpointHandler "GET" (10 * 1000000000) (fun _ => "") "GET"
        (.ok (some ⟨[], true⟩)) false).headers =
      [("X_X", "Version undefined"), ("Cache-Control", "max-age=10"),
        ("Content-Type", "application/json")] ∧
    ("Cache-Control", "public, max-age=10") ∉
      (customEndpointHandler "GET" (10 * 1000000000) (fun _ => "") "GET"
        (.ok (some ⟨[], true⟩)) false).headers := by
  constructor
  · rfl
  · decide

/-- C2 (amended): when the method matches, the proxy returns a response
without error and the timeout context has not expired, the handler
replies 200 with the JSON serialization of the response data as the
body, and it emits the header Cache-Control with value
max-age=(truncated ttl seconds) if and only if the configured cache TTL
is nonzero and the response IsComplete is true. -/
theorem endpointHandler_success_behavior (cfgMethod : String)
    (cacheTTLns : Int) (jsonEncode : JObj → String) (resp : Response)
    (reqMethod : String) (hm : reqMethod = cfgMethod) :
    (customEndpointHandler cfgMethod cacheTTLns jsonEncode reqMethod
        (.ok (some resp)) false).status = 200 ∧
    (customEndpointHandler cfgMethod cacheTTLns jsonEncode reqMethod
        (.ok (some resp)) false).body = jsonEncode resp.data ∧
    (∀ v, ("Cache-Control", v) ∈
        (customEndpointHandler cfgMethod cacheTTLns jsonEncode reqMethod
          (.ok (some resp)) false).headers ↔
      (cacheTTLns ≠ 0 ∧ resp.isComplete = true ∧
        v = "max-age=" ++ toString (cacheTTLns.tdiv 1000000000))) := by
  subst hm
  by_cases hc1 : cacheTTLns = (0 : Int) <;> by_cases hc2 : resp.isComplete <;>
    refine ⟨by simp [customEndpointHandler, hc1, hc2],
      by simp [customEndpointHandler, hc1, hc2], fun v => ?_⟩ <;>
    simp [customEndpointHandler, hc1, hc2]

/-- Witness for C2 at a concrete matching request with a complete
response and a 10-second TTL. -/
theorem endpointHandler_success_behavior_witness :
    (customEndpointHandler "GET" (10 * 1000000000) (fun _ => "a1") "GET"
        (.ok (some ⟨[], true⟩)) false).status = 200 ∧
    ("Cache-Control", "max-age=10") ∈
      (customEndpointHandler "GET" (10 * 1000000000) (fun _ => "a1") "GET"
        (.ok (some ⟨[], true⟩)) false).headers :=
  ⟨(endpointHandler_success_behavior "GET" (10 * 1000000000) (fun _ => "a1")
      ⟨[], true⟩ "GET" rfl).1,
   ((endpointHandler_success_behavior "GET" (10 * 1000000000) (fun _ => "a1")
      ⟨[], true⟩ "GET" rfl).2.2 "max-age=10").2 ⟨by decide, rfl, by decide⟩⟩

instance : DecidableEq (Except GoErr String) := fun a b =>
  match a, b with
  | .error e1, .error e2 =>
    if h : e1 = e2 then isTrue (by rw [h])
    else isFalse (fun hc => by cases hc; exact h rfl)
  | .ok s1, .ok s2 =>
    if h : s1 = s2 then isTrue (by rw [h])
    else isFalse (fun hc => by cases hc; exact h rfl)
  | .error _, .ok _ => isFalse (fun hc => by cases hc)
  | .ok _, .error _ => isFalse (fun hc => by cases hc)

theorem U64_pos : 0 < U64 := by norm_num [U64]

theorem rrHost_ok (hs : List String) (hne : hs ≠ []) (c : Nat) :
    rrHost (.ok hs) c =
      (.ok (hs.getD ((((c + 1) % U64) + U64 - 1) % U64 % hs.length) ""),
        (c + 1) % U64) := by
  have hlen : ¬ hs.length ≤ 0 := by
    simp [Nat.le_zero, List.length_eq_zero, hne]
  simp [rrHost, hlen]

theorem rrOffset_eq (c : Nat) (hc : c < U64) :
    (((c + 1) % U64) + U64 - 1) % U64 = c := by
  by_cases h : c + 1 < U64
  · rw [Nat.mod_eq_of_lt h]
    have heq : c + 1 + U64 - 1 = c + U64 := by omega
    rw [heq, Nat.add_mod_right, Nat.mod_eq_of_lt hc]
  · have hceq : c + 1 = U64 := by omega
    rw [hceq, Nat.mod_self]
    have heq : 0 + U64 - 1 = c := by omega
    rw [heq, Nat.mod_eq_of_lt hc]

theorem rrCounterAfter_ok (hs : List String) (hne : hs ≠ []) :
    ∀ n, rrCounterAfter (.ok hs) n = n % U64 := by
  intro n
  induction n with
  | zero => simp [rrCounterAfter]
  | succ n ih =>
    show (rrHost (.ok hs) (rrCounterAfter (.ok hs) n)).2 = (n + 1) % U64
    rw [ih, rrHost_ok hs hne]
    exact Nat.mod_add_mod n U64 1

theorem rrNthCall_formula (hs : List String) (hne : hs ≠ []) (n : Nat) :
    rrNthCall (.ok hs) n = .ok (hs.getD (((n - 1) % U64) % hs.length) "") := by
  unfold rrNthCall
  rw [rrCounterAfter_ok hs hne, rrHost_ok hs hne]
  rw [rrOffset_eq ((n - 1) % U64) (Nat.mod_lt _ U64_pos)]

theorem count_cycle (H : Nat) (hH : 0 < H) (c j : Nat) (hj : j < H) :
    ((List.range H).map (fun i => (c + i) % H)).count j = 1 := by
  have hnd : ((List.range H).map (fun i => (c + i) % H)).Nodup := by
    refine List.Nodup.map_on ?_ (List.nodup_range H)
    intro x hx y hy hxy
    rw [List.mem_range] at hx hy
    have hxy' : Nat.ModEq H (c + x) (c + y) := hxy
    have hmod : x % H = y % H := Nat.ModEq.add_left_cancel' c hxy'
    rwa [Nat.mod_eq_of_lt hx, Nat.mod_eq_of_lt hy] at hmod
  have hmem : j ∈ (List.range H).map (fun i => (c + i) % H) := by
    rw [List.mem_map]
    have hd := Nat.div_add_mod c H
    by_cases hle : c % H ≤ j
    · refine ⟨j - c % H, ?_, ?_⟩
      · rw [List.mem_range]; omega
      · have heq : c + (j - c % H) = H * (c / H) + j := by omega
        rw [heq, Nat.mul_add_mod, Nat.mod_eq_of_lt hj]
    · refine ⟨j + H - c % H, ?_, ?_⟩
      · rw [List.mem_range]
        have := Nat.mod_lt c hH
        omega
      · have hcm := Nat.mod_lt c hH
        have heq : c + (j + H - c % H) = H * (c / H) + (H + j) := by omega
        rw [heq, Nat.mul_add_mod, Nat.add_mod_left, Nat.mod_eq_of_lt hj]
  exact List.count_eq_one_of_mem hnd hmem

theorem count_block (H : Nat) (hH : 0 < H) (c j : Nat) (hj : j < H) :
    ∀ k, ((List.range (k * H)).map (fun i => (c + i) % H)).count j = k := by
  intro k
  induction k with
  | zero => simp
  | succ k ih =>
    have hsplit : List.range ((k + 1) * H) =
        List.range (k * H) ++ (List.range H).map (fun x => k * H + x) := by
      rw [Nat.succ_mul, List.range_add]
    rw [hsplit, List.map_append, List.count_append, ih, List.map_map]
    have hmap : ((List.range H).map ((fun i => (c + i) % H) ∘ (fun x => k * H + x))) =
        (List.range H).map (fun i => ((c + k * H) + i) % H) := by
      refine List.map_congr_left ?_
      intro a _
      show (c + (k * H + a)) % H = ((c + k * H) + a) % H
      rw [← Nat.add_assoc]
    rw [hmap, count_cycle H hH (c + k * H) j hj]

theorem count_map_getD (hs : List String) (hnd : hs.Nodup) (j : Nat)
    (hj : j < hs.length) :
    ∀ l : List Nat, (∀ m ∈ l, m < hs.length) →
      (l.map (fun m => (Except.ok (hs.getD m "") : Except GoErr String))).count
        (.ok (hs.getD j "")) = l.count j := by
  intro l
  induction l with
  | nil => intro _; simp
  | cons m rest ih =>
    intro hl
    have hm : m < hs.length := hl m (List.mem_cons_self _ _)
    rw [List.map_cons, List.count_cons, List.count_cons,
      ih (fun x hx => hl x (List.mem_cons_of_mem _ hx))]
    by_cases hmj : m = j
    · subst hmj; simp
    · have hgetD : hs.getD m "" ≠ hs.getD j "" := by
        rw [List.getD_eq_getElem hs "" hm, List.getD_eq_getElem hs "" hj]
        intro hc
        exact hmj ((List.Nodup.getElem_inj_iff hnd).1 hc)
      have hb1 : ((Except.ok (hs.getD m "") : Except GoErr String) ==
          Except.ok (hs.getD j "")) = false :=
        beq_eq_false_iff_ne.2 (fun hc => hgetD (by injection hc))
      have hb2 : (m == j) = false := beq_eq_false_iff_ne.2 hmj
      rw [hb1, hb2]

/-- C6 counterexample: over the three distinct hosts h0 h1 h2, the
(2^64 + 1)-th call returns h0 because the uint64 counter has wrapped,
while hosts[(n-1) mod 3] is h1. -/
theorem roundRobin_wraparound_counterexample :
    rrNthCall (.ok ["h0", "h1", "h2"]) (U64 + 1) = .ok "h0" ∧
    ["h0", "h1", "h2"].getD ((U64 + 1 - 1) % 3) "" = "h1" := by
  constructor
  · rw [rrNthCall_formula ["h0", "h1", "h2"] (by simp) (U64 + 1)]
    have h1 : (U64 + 1 - 1) % U64 = 0 := by
      simp
    rw [h1]
    rfl
  · have h2 : (U64 + 1 - 1) % 3 = 1 := by decide
    rw [h2]
    rfl

/-- C6 (amended): for a fixed non-empty host list of length H, the n-th
call (counting from 1) of the round-robin balancer returns
hosts[((n-1) mod 2^64) mod H] — the uint64 counter wraps at 2^64 — and
over any kH consecutive calls whose counter window does not cross a
wraparound, each host of a duplicate-free list is selected exactly k
times. -/
theorem roundRobin_indexing_and_fairness (hs : List String) (hne : hs ≠ []) :
    (∀ n, 1 ≤ n →
      rrNthCall (.ok hs) n = .ok (hs.getD (((n - 1) % U64) % hs.length) "")) ∧
    (∀ n₀ k, 1 ≤ n₀ → (n₀ - 1) % U64 + k * hs.length ≤ U64 → hs.Nodup →
      ∀ j, j < hs.length →
        ((List.range (k * hs.length)).map
            (fun i => rrNthCall (.ok hs) (n₀ + i))).count
          (.ok (hs.getD j "")) = k) := by
  have hH : 0 < hs.length := List.length_pos.2 hne
  constructor
  · intro n _
    exact rrNthCall_formula hs hne n
  · intro n₀ k hn₀ hwrap hnd j hj
    have hceq : ∀ i, i < k * hs.length →
        rrNthCall (.ok hs) (n₀ + i) =
          .ok (hs.getD (((n₀ - 1) % U64 + i) % hs.length) "") := by
      intro i hi
      rw [rrNthCall_formula hs hne (n₀ + i)]
      have h1 : n₀ + i - 1 = (n₀ - 1) + i := by omega
      have h2 : ((n₀ - 1) + i) % U64 = (n₀ - 1) % U64 + i := by
        rw [← Nat.mod_add_mod]
        exact Nat.mod_eq_of_lt
          (lt_of_lt_of_le (Nat.add_lt_add_left hi ((n₀ - 1) % U64)) hwrap)
      rw [h1, h2]
    have hmapeq : (List.range (k * hs.length)).map
        (fun i => rrNthCall (.ok hs) (n₀ + i)) =
        ((List.range (k * hs.length)).map
          (fun i => ((n₀ - 1) % U64 + i) % hs.length)).map
          (fun m => (Except.ok (hs.getD m "") : Except GoErr String)) := by
      rw [List.map_map]
      refine List.map_congr_left ?_
      intro a ha
      rw [List.mem_range] at ha
      exact hceq a ha
    rw [hmapeq, count_map_getD hs hnd j hj _
      (fun m hm => by
        rw [List.mem_map] at hm
        obtain ⟨i, -, rfl⟩ := hm
        exact Nat.mod_lt _ hH)]
    exact count_block hs.length hH ((n₀ - 1) % U64) j hj k

/-- Witness for C6 at three distinct hosts: the second call returns h1,
and over the first 6 calls each host is selected exactly twice. -/
theorem roundRobin_indexing_and_fairness_witness :
    rrNthCall (.ok ["h0", "h1", "h2"]) 2 =
      .ok (["h0", "h1", "h2"].getD (((2 - 1) % U64) % 3) "") ∧
    ((List.range (2 * 3)).map
        (fun i => rrNthCall (.ok ["h0", "h1", "h2"]) (1 + i))).count
      (.ok (["h0", "h1", "h2"].getD 0 "")) = 2 :=
  ⟨(roundRobin_indexing_and_fairness ["h0", "h1", "h2"] (by simp)).1 2
      (by norm_num),
   (roundRobin_indexing_and_fairness ["h0", "h1", "h2"] (by simp)).2 1 2
      (by norm_num) (by norm_num [U64]) (by simp) 0 (by norm_num)⟩

end Porta
